import Mathlib

/-!
# rebound: the McLachlan convergence test and the overstability setup

A shallow embedding of `examples/integrator_mclachlan/problem.c` and
`examples/overstability/problem.c`.

Modelling conventions.

* C `double` values are elements of a linearly ordered field `K` (exact
  arithmetic, no rounding); concrete runs use `ℚ`, statements that need the
  real square root or the real number pi use `ℝ`.
* `sqrt` (math.h), `M_PI` (math.h), `RAND_MAX` and `rand` (stdlib.h) are not
  part of the sources and are taken as parameters.
* The global variables of the old rebound API (`boxsize`, `softening`, `dt`,
  `tmax`, `G`, `N`, `N_active`, `particles`, ...) are the fields of one
  record that is passed explicitly.
* `int` counters are natural numbers: they start at 0 and never exceed 523.
* A `while` loop whose number of iterations depends on sampled values is a
  function with a fuel argument; it returns `none` when the fuel runs out.
-/

namespace Rebound

/-! ## Data model -/

/-- The fields of `struct particle` that the two problem files read or write. -/
structure particle (K : Type) where
  x : K
  y : K
  z : K
  vx : K
  vy : K
  vz : K
  ax : K
  ay : K
  az : K
  m : K

/-- The zero particle: the value of an out-of-range read in the model. -/
def particle.zero (K : Type) [Zero K] : particle K :=
  ⟨0, 0, 0, 0, 0, 0, 0, 0, 0, 0⟩

/-- The global simulation state used by `integrator_mclachlan/problem.c`.
`calls` counts the calls made to `tools_uniform` so far (the state of the
random number generator); `energy_init` is the file-level variable of the
problem file. -/
structure Sim (K : Type) where
  boxsize : K
  boxsize_x : K
  boxsize_y : K
  softening : K
  dt : K
  tmax : K
  G : K
  N : Nat
  N_active : Nat
  particles : List (particle K)
  energy_init : K
  calls : Nat

/-- Read `particles[i]`. -/
def Sim.get {K : Type} [Zero K] (s : Sim K) (i : Nat) : particle K :=
  s.particles.getD i (particle.zero K)

/-- A generic `while (cond) body` loop with a bound on the number of
iterations: `none` when the bound is reached with the condition still true. -/
def whileFuel {σ : Type} (cond : σ → Bool) (body : σ → σ) : Nat → σ → Option σ
  | fuel, s =>
    if cond s then
      match fuel with
      | 0 => none
      | fuel + 1 => whileFuel cond body fuel (body s)
    else some s

/-! ## `integrator_mclachlan/problem.c` -/

section mclachlan

variable {K : Type} [LinearOrderedField K]

/-- Modelled from the spec: `particles_add` (particle.c is absent). It appends
its argument to the particle store and increments `N` by one. -/
def particles_add (s : Sim K) (pt : particle K) : Sim K :=
  { s with particles := s.particles ++ [pt], N := s.N + 1 }

/-- Modelled from the spec: `init_box` (main.c is absent). It derives the box
extents from `boxsize`; the resulting `boxsize_x` and `boxsize_y` are the
parameters `bx` and `by_`. -/
def init_box (bx by_ : K) (s : Sim K) : Sim K :=
  { s with boxsize_x := bx, boxsize_y := by_ }

/-- The value `r` of line 98 for the pair `(i, j)`. -/
def pair_r (sqrt : K → K) (s : Sim K) (i j : Nat) : K :=
  let dx := (s.get i).x - (s.get j).x
  let dy := (s.get i).y - (s.get j).y
  let dz := (s.get i).z - (s.get j).z
  sqrt (dx * dx + dy * dy + dz * dz + s.softening * s.softening)

/-- The body of the inner loop of `energy` (lines 94-99), acting on the local
accumulator `e` and the global state. -/
def energy_inner (sqrt : K → K) (i : Nat) (st : K × Sim K) (j : Nat) : K × Sim K :=
  if i = j then st
  else
    let r := pair_r sqrt st.2 i j
    (st.1 + -st.2.G / r * (st.2.get j).m, st.2)

/-- The body of the outer loop of `energy` (lines 93-104). -/
def energy_outer (sqrt : K → K) (st : K × Sim K) (i : Nat) : K × Sim K :=
  let st := (List.range st.2.N_active).foldl (energy_inner sqrt i) st
  let vx := (st.2.get i).vx
  let vy := (st.2.get i).vy
  let vz := (st.2.get i).vz
  (st.1 + 0.5 * (vx * vx + vy * vy + vz * vz), st.2)

/-- The function `energy` (lines 90-107): the returned value together with the
global state after the call. -/
def energy (sqrt : K → K) (s : Sim K) : K × Sim K :=
  (List.range' s.N_active (s.N - s.N_active)).foldl (energy_outer sqrt) (0, s)

/-- Lines 50-56 of `problem_init`: the configuration of the run. -/
def problem_init_config (bx by_ : K) (s : Sim K) : Sim K :=
  let s := { s with boxsize := 100 }
  let s := { s with softening := 0 }
  let s := { s with dt := 0.01 }
  let s := init_box bx by_ s
  let velocity : K := 10
  { s with tmax := s.boxsize_x / 4 / velocity }

/-- The body of the first loop (lines 61-69); `continue` leaves the store
unchanged. -/
def massive_body (tools_uniform : Nat → K → K → K) (s : Sim K) : Sim K :=
  let x := tools_uniform s.calls (-s.boxsize_x / 16) (s.boxsize_x / 16)
  let s := { s with calls := s.calls + 1 }
  let y := tools_uniform s.calls (-s.boxsize_y / 2) (s.boxsize_y / 2)
  let s := { s with calls := s.calls + 1 }
  if |y| < s.boxsize_y / 16 then s
  else particles_add s ⟨x, y, 0, 0, 0, 0, 0, 0, 0, 1⟩

/-- The body of the second loop (lines 75-82). -/
def test_body (tools_uniform : Nat → K → K → K) (s : Sim K) : Sim K :=
  let velocity : K := 10
  let x := -s.boxsize_x / 8
  let y := tools_uniform s.calls (-s.boxsize_y / 32) (s.boxsize_y / 32)
  let s := { s with calls := s.calls + 1 }
  particles_add s ⟨x, y, 0, velocity, 0, 0, 0, 0, 0, 0⟩

/-- Lines 50-71 of `problem_init`: configuration, the loop creating the massive
particles, and `N_active = N`. -/
def problem_init_massive (tools_uniform : Nat → K → K → K) (bx by_ : K)
    (fuel : Nat) (s : Sim K) : Option (Sim K) :=
  (whileFuel (fun s => decide (s.N < 200)) (massive_body tools_uniform) fuel
    (problem_init_config bx by_ s)).map fun s => { s with N_active := s.N }

/-- Lines 50-83 of `problem_init`: the state on which `energy` is called at
line 86. -/
def problem_init_particles (tools_uniform : Nat → K → K → K) (bx by_ : K)
    (fuel : Nat) (s : Sim K) : Option (Sim K) :=
  (problem_init_massive tools_uniform bx by_ fuel s).bind fun s =>
    whileFuel (fun s => decide (s.N < 300)) (test_body tools_uniform) fuel s

/-- The function `problem_init` (lines 49-87). -/
def problem_init (sqrt : K → K) (tools_uniform : Nat → K → K → K) (bx by_ : K)
    (fuel : Nat) (s : Sim K) : Option (Sim K) :=
  (problem_init_particles tools_uniform bx by_ fuel s).map fun s =>
    let r := energy sqrt s
    { r.2 with energy_init := r.1 }

/-- The value printed by `problem_finish` (lines 117-118). -/
def problem_finish (sqrt : K → K) (s : Sim K) : K :=
  let energy_finish := (energy sqrt s).1
  (energy_finish - s.energy_init) / (energy_finish + s.energy_init) * 2

end mclachlan

/-- A square root on `ℚ` that is exact on squares of rationals, for concrete
runs. -/
def qsqrt (q : ℚ) : ℚ := (Nat.sqrt q.num.toNat : ℚ) / (Nat.sqrt q.den : ℚ)

/-- An empty store with `G = 1`. -/
def emptySim (K : Type) [LinearOrderedField K] : Sim K :=
  ⟨0, 0, 0, 0, 0, 0, 1, 0, 0, [], 0, 0⟩

/-- A sampler that always returns the upper end of the requested interval. -/
def upperSampler (K : Type) : Nat → K → K → K := fun _ _ b => b


/-! ## The energy as the spec words it, and as sums over index ranges -/

section energy_sums

variable {K : Type} [LinearOrderedField K]

/-- The squared distance `|r_i - r_j|²` between particles `i` and `j`. -/
def dist_sq (s : Sim K) (i j : Nat) : K :=
  ((s.get i).x - (s.get j).x) ^ 2 + ((s.get i).y - (s.get j).y) ^ 2
    + ((s.get i).z - (s.get j).z) ^ 2

/-- The squared speed `vx² + vy² + vz²` of particle `i`. -/
def speed_sq (s : Sim K) (i : Nat) : K :=
  (s.get i).vx ^ 2 + (s.get i).vy ^ 2 + (s.get i).vz ^ 2

/-- The kinetic term in the spec's words: `Σ 0.5 m v²` over the test-particle
range `[N_active, N)`. -/
def spec_kinetic (s : Sim K) : K :=
  ∑ i in Finset.Ico s.N_active s.N, 0.5 * (s.get i).m * speed_sq s i

/-- The potential term in the spec's words:
`Σ -G m_i m_j / sqrt(|r_i - r_j|² + softening²)` over `i` in `[N_active, N)`
and `j` in `[0, N_active)`. -/
def spec_potential (sqrt : K → K) (s : Sim K) : K :=
  ∑ i in Finset.Ico s.N_active s.N, ∑ j in Finset.range s.N_active,
    -s.G * (s.get i).m * (s.get j).m / sqrt (dist_sq s i j + s.softening ^ 2)

/-- The kinetic term per unit test-particle mass: `Σ 0.5 v²` over
`[N_active, N)`. -/
def specific_kinetic (s : Sim K) : K :=
  ∑ i in Finset.Ico s.N_active s.N, 0.5 * speed_sq s i

/-- The potential term per unit test-particle mass:
`Σ -G m_j / sqrt(|r_i - r_j|² + softening²)` over `i` in `[N_active, N)` and
`j` in `[0, N_active)`. -/
def specific_potential (sqrt : K → K) (s : Sim K) : K :=
  ∑ i in Finset.Ico s.N_active s.N, ∑ j in Finset.range s.N_active,
    -s.G * (s.get j).m / sqrt (dist_sq s i j + s.softening ^ 2)

/-- Every pair of a test particle and an active particle has a non-zero `r`. -/
def separated (sqrt : K → K) (s : Sim K) : Prop :=
  ∀ i j, s.N_active ≤ i → i < s.N → j < s.N_active → pair_r sqrt s i j ≠ 0

end energy_sums

/-- One active particle of mass 1 at the origin and one massless test particle
at `(3, 4, 0)` moving with velocity `(10, 0, 0)`; `G = 1`, no softening. -/
def twoBody : Sim ℚ :=
  { emptySim ℚ with
    N := 2, N_active := 1,
    particles := [⟨0, 0, 0, 0, 0, 0, 0, 0, 0, 1⟩, ⟨3, 4, 0, 10, 0, 0, 0, 0, 0, 0⟩] }

/-- The two-body store with the test particle's mass set to 7 and the active
particle's velocity set to `(1, 2, 3)`. -/
def twoBodyVariant : Sim ℚ :=
  { emptySim ℚ with
    N := 2, N_active := 1,
    particles := [⟨0, 0, 0, 1, 2, 3, 0, 0, 0, 1⟩, ⟨3, 4, 0, 10, 0, 0, 0, 0, 0, 7⟩] }

/-! ## `overstability/problem.c` -/

section overstability

variable {K : Type} [LinearOrderedField K]

/-- The fields of `struct reb_particle` written by `main`. -/
structure reb_particle (K : Type) where
  x : K
  y : K
  z : K
  vx : K
  vy : K
  vz : K
  ax : K
  ay : K
  az : K
  m : K
  r : K

/-- The integrator selected by `main`. -/
inductive reb_integrator where
  | REB_INTEGRATOR_SEI

/-- The collision search selected by `main`. -/
inductive reb_collision where
  | REB_COLLISION_TREE

/-- The gravity mode selected by `main`. -/
inductive reb_gravity where
  | REB_GRAVITY_NONE

/-- The boundary mode selected by `main`. -/
inductive reb_boundary where
  | REB_BOUNDARY_SHEAR

/-- The fields of `struct reb_simulation` that `main` reads or writes; a mode
that has not been set is `none`. `calls` counts the calls made to `rand`. -/
structure reb_simulation (K : Type) where
  ri_sei_OMEGA : K
  ri_sei_OMEGAZ : K
  dt : K
  coefficient_of_restitution : Option (K → K)
  integrator : Option reb_integrator
  collision : Option reb_collision
  gravity : Option reb_gravity
  boundary : Option reb_boundary
  boxsize_x : K
  boxsize_y : K
  boxsize_z : K
  nghostx : Nat
  nghosty : Nat
  nghostz : Nat
  N : Nat
  particles : List (reb_particle K)
  calls : Nat

/-- The function `coefficient_of_restitution` (lines 23-25); the simulation
argument is not used. -/
def coefficient_of_restitution (_v : K) : K := 0.5

/-- Modelled from the spec: `reb_create_simulation` (rebound.c is absent). A
fresh simulation has `N = 0` and an empty particle store. -/
def reb_create_simulation (K : Type) [LinearOrderedField K] : reb_simulation K :=
  { ri_sei_OMEGA := 0, ri_sei_OMEGAZ := 0, dt := 0, coefficient_of_restitution := none,
    integrator := none, collision := none, gravity := none, boundary := none,
    boxsize_x := 0, boxsize_y := 0, boxsize_z := 0, nghostx := 0, nghosty := 0, nghostz := 0,
    N := 0, particles := [], calls := 0 }

/-- Modelled from the spec: `reb_configure_box` (rebound.c is absent). The box
consists of `root_nx × root_ny × root_nz` root cells of size `boxsize`; the call
of line 41 gives `boxsize.x = 200`, `boxsize.y = 5`, `boxsize.z = 20`. -/
def reb_configure_box (r : reb_simulation K) (boxsize : K) (root_nx root_ny root_nz : Nat) :
    reb_simulation K :=
  { r with boxsize_x := boxsize * root_nx, boxsize_y := boxsize * root_ny,
           boxsize_z := boxsize * root_nz }

/-- Modelled from the spec: `reb_add` (rebound.c is absent). It appends the
particle to the store and increases `r->N` by exactly one. -/
def reb_add (r : reb_simulation K) (p : reb_particle K) : reb_simulation K :=
  { r with particles := r.particles ++ [p], N := r.N + 1 }

/-- The local variable `particle_r` of `main` (line 33). -/
def main_particle_r : K := 1

/-- The local variable `tau` of `main` (line 34). -/
def main_tau : K := 1.64

/-- The velocity prescribed at line 52 for a particle at radial position `x`. -/
def shear_vy (x : K) : K := -1.5 * x

/-- Lines 28-42 of `main`: the configuration of the simulation. -/
def main_config (M_PI : K) : reb_simulation K :=
  let r := reb_create_simulation K
  let r := { r with ri_sei_OMEGA := 1 }
  let r := { r with ri_sei_OMEGAZ := 3.6 }
  let r := { r with dt := 2e-3 * 2 * M_PI }
  let r := { r with coefficient_of_restitution := some coefficient_of_restitution }
  let r := { r with integrator := some reb_integrator.REB_INTEGRATOR_SEI }
  let r := { r with collision := some reb_collision.REB_COLLISION_TREE }
  let r := { r with gravity := some reb_gravity.REB_GRAVITY_NONE }
  let r := { r with boundary := some reb_boundary.REB_BOUNDARY_SHEAR }
  let r := reb_configure_box r 1 200 5 20
  { r with nghostx := 1, nghosty := 1, nghostz := 0 }

/-- The local variable `_N` of `main` (line 45). -/
def main_N (M_PI : K) (r : reb_simulation K) : K :=
  main_tau * r.boxsize_x * r.boxsize_y / (M_PI * main_particle_r * main_particle_r)

/-- The body of the particle-creation loop (lines 47-57). `rand n` is the value
returned by the `n`-th call of `rand()`. -/
def main_body (rand : Nat → Nat) (RAND_MAX : Nat) (r : reb_simulation K) : reb_simulation K :=
  let px := ((rand r.calls : K) / (RAND_MAX : K) - 0.5) * r.boxsize_x
  let r := { r with calls := r.calls + 1 }
  let py := ((rand r.calls : K) / (RAND_MAX : K) - 0.5) * r.boxsize_y
  let r := { r with calls := r.calls + 1 }
  let pz := 10.0 * ((rand r.calls : K) / (RAND_MAX : K) - 0.5) * main_particle_r
  let r := { r with calls := r.calls + 1 }
  reb_add r ⟨px, py, pz, 0, shear_vy px, 0, 0, 0, 0, 1, main_particle_r⟩

/-- Lines 28-58 of `main`: the simulation handed to `reb_integrate`. -/
def main_setup (M_PI : K) (rand : Nat → Nat) (RAND_MAX : Nat) (fuel : Nat) :
    Option (reb_simulation K) :=
  let r := main_config M_PI
  let _N := main_N M_PI r
  whileFuel (fun r => decide ((r.N : K) < _N)) (main_body rand RAND_MAX) fuel r

/-- The realised optical depth `N * pi * particle_r² / (boxsize.x * boxsize.y)`. -/
def optical_depth (M_PI : K) (r : reb_simulation K) : K :=
  r.N * M_PI * main_particle_r ^ 2 / (r.boxsize_x * r.boxsize_y)

end overstability

/-! ## Predicates on the state built by `problem_init` -/

section init_defs

variable {K : Type} [LinearOrderedField K]

/-- The assumption on `tools_uniform`: the value returned for a non-empty
interval `[a, b]` lies in it. -/
def uniform_in_range (tools_uniform : Nat → K → K → K) : Prop :=
  ∀ n a b, a ≤ b → a ≤ tools_uniform n a b ∧ tools_uniform n a b ≤ b

/-- The configuration written by lines 50-56, for box extents `bx`, `by_` and
gravitational constant `g`. -/
def config_ok (bx by_ g : K) (s : Sim K) : Prop :=
  s.boxsize = 100 ∧ s.boxsize_x = bx ∧ s.boxsize_y = by_ ∧ s.softening = 0 ∧
    s.dt = 0.01 ∧ s.tmax = bx / 4 / 10 ∧ s.G = g

/-- A massive particle of the scenario. -/
def is_massive (bx by_ : K) (p : particle K) : Prop :=
  p.m = 1 ∧ p.vx = 0 ∧ p.vy = 0 ∧ p.vz = 0 ∧ p.z = 0 ∧ |p.x| ≤ bx / 16 ∧ by_ / 16 ≤ |p.y|

/-- A test particle of the scenario. -/
def is_test (bx by_ : K) (p : particle K) : Prop :=
  p.m = 0 ∧ p.x = -bx / 8 ∧ |p.y| ≤ by_ / 32 ∧ p.z = 0 ∧ p.vx = 10 ∧ p.vy = 0 ∧ p.vz = 0

/-- The particle built by an accepted iteration of the first loop from the
samples of calls `n` and `k`. -/
def massive_pt (tools_uniform : Nat → K → K → K) (bx by_ : K) (n k : Nat) : particle K :=
  ⟨tools_uniform n (-bx / 16) (bx / 16), tools_uniform k (-by_ / 2) (by_ / 2),
    0, 0, 0, 0, 0, 0, 0, 1⟩

/-- The particle built by an iteration of the second loop from the sample of
call `n`. -/
def test_pt (tools_uniform : Nat → K → K → K) (bx by_ : K) (n : Nat) : particle K :=
  ⟨-bx / 8, tools_uniform n (-by_ / 32) (by_ / 32), 0, 10, 0, 0, 0, 0, 0, 0⟩

/-- The invariant of the first loop. -/
def massive_inv (bx by_ g : K) (P : particle K → Prop) (s : Sim K) : Prop :=
  config_ok bx by_ g s ∧ s.N = s.particles.length ∧ s.N ≤ 200 ∧ ∀ p ∈ s.particles, P p

/-- The invariant of the second loop, relative to the store `base` left by the
first. -/
def test_inv (bx by_ g : K) (Q : particle K → Prop) (base : List (particle K))
    (s : Sim K) : Prop :=
  config_ok bx by_ g s ∧ s.N = s.particles.length ∧ s.N ≤ 300 ∧ s.N_active = 200 ∧
    ∃ L, s.particles = base ++ L ∧ ∀ p ∈ L, Q p

end init_defs

/-! ## Auxiliary definitions for the proofs -/

section aux_defs

variable {K : Type} [LinearOrderedField K]

/-- The contribution of the pair `(i, j)` to the accumulator. -/
def pair_term (sqrt : K → K) (s : Sim K) (i j : Nat) : K :=
  if i = j then 0 else -s.G / pair_r sqrt s i j * (s.get j).m

/-- The contribution of one iteration of the outer loop. -/
def row_term (sqrt : K → K) (s : Sim K) (i : Nat) : K :=
  ((List.range s.N_active).map (pair_term sqrt s i)).sum
    + 0.5 * ((s.get i).vx * (s.get i).vx + (s.get i).vy * (s.get i).vy
      + (s.get i).vz * (s.get i).vz)

/-- The invariant of the particle-creation loop: the configuration is kept, `N`
counts the store, and every stored particle satisfies `P`. -/
def main_inv (P : reb_particle K → Prop) (r : reb_simulation K) : Prop :=
  r.ri_sei_OMEGA = 1 ∧ r.boxsize_x = 200 ∧ r.boxsize_y = 5 ∧ r.N = r.particles.length ∧
    ∀ p ∈ r.particles, P p

end aux_defs

/-! # Theorems -/

/-! ## Lemmas on `energy` -/

section energy_lemmas

variable {K : Type} [LinearOrderedField K]

theorem pair_r_eq (sqrt : K → K) (s : Sim K) (i j : Nat) :
    pair_r sqrt s i j = sqrt (dist_sq s i j + s.softening ^ 2) := by
  simp only [pair_r, dist_sq]
  congr 1
  ring

theorem energy_inner_foldl (sqrt : K → K) (i : Nat) (l : List Nat) (e : K) (s : Sim K) :
    l.foldl (energy_inner sqrt i) (e, s) = (e + (l.map (pair_term sqrt s i)).sum, s) := by
  induction l generalizing e with
  | nil => simp
  | cons j l ih =>
    have hstep : energy_inner sqrt i (e, s) j = (e + pair_term sqrt s i j, s) := by
      unfold energy_inner pair_term
      split <;> simp
    rw [List.foldl_cons, hstep, ih]
    simp [add_assoc]

theorem energy_outer_eq (sqrt : K → K) (e : K) (s : Sim K) (i : Nat) :
    energy_outer sqrt (e, s) i = (e + row_term sqrt s i, s) := by
  simp [energy_outer, energy_inner_foldl, row_term, add_assoc]

theorem energy_outer_foldl (sqrt : K → K) (l : List Nat) (e : K) (s : Sim K) :
    l.foldl (energy_outer sqrt) (e, s) = (e + (l.map (row_term sqrt s)).sum, s) := by
  induction l generalizing e with
  | nil => simp
  | cons i l ih => simp [List.foldl_cons, energy_outer_eq, ih, add_assoc]

theorem energy_eq (sqrt : K → K) (s : Sim K) :
    energy sqrt s
      = (((List.range' s.N_active (s.N - s.N_active)).map (row_term sqrt s)).sum, s) := by
  simp [energy, energy_outer_foldl]

theorem sum_map_range (f : Nat → K) (n : Nat) :
    ((List.range n).map f).sum = ∑ j in Finset.range n, f j := by
  induction n with
  | zero => simp
  | succ n ih => simp [List.range_succ, Finset.sum_range_succ, ih]

theorem sum_map_range' (f : Nat → K) (a n : Nat) :
    ((List.range' a n).map f).sum = ∑ i in Finset.Ico a (a + n), f i := by
  rw [List.range'_eq_map_range, List.map_map, sum_map_range, Finset.sum_Ico_eq_sum_range]
  simp

theorem energy_val (sqrt : K → K) (s : Sim K) (h : s.N_active ≤ s.N) :
    (energy sqrt s).1 = ∑ i in Finset.Ico s.N_active s.N, row_term sqrt s i := by
  rw [energy_eq, sum_map_range']
  simp [Nat.add_sub_cancel' h]

theorem row_term_eq (sqrt : K → K) (s : Sim K) (i : Nat) (h : s.N_active ≤ i) :
    row_term sqrt s i
      = 0.5 * speed_sq s i + ∑ j in Finset.range s.N_active,
          -s.G * (s.get j).m / sqrt (dist_sq s i j + s.softening ^ 2) := by
  rw [row_term, sum_map_range, add_comm]
  congr 1
  · simp only [speed_sq]; ring
  · apply Finset.sum_congr rfl
    intro j hj
    have hj' : j < s.N_active := Finset.mem_range.mp hj
    have hne : i ≠ j := by omega
    rw [pair_term, if_neg hne, pair_r_eq]
    ring

end energy_lemmas

/-! ## Lemmas on `whileFuel` -/

section while_lemmas

variable {σ : Type}

theorem whileFuel_of_false (cond : σ → Bool) (body : σ → σ) (fuel : Nat) (s : σ)
    (h : cond s = false) : whileFuel cond body fuel s = some s := by
  cases fuel <;> simp [whileFuel, h]

theorem whileFuel_succ (cond : σ → Bool) (body : σ → σ) (fuel : Nat) (s : σ)
    (h : cond s = true) :
    whileFuel cond body (fuel + 1) s = whileFuel cond body fuel (body s) := by
  simp [whileFuel, h]

theorem whileFuel_zero (cond : σ → Bool) (body : σ → σ) (s : σ)
    (h : cond s = true) : whileFuel cond body 0 s = none := by
  simp [whileFuel, h]

/-- A loop invariant holds on exit, where the loop condition is false. -/
theorem whileFuel_inv (cond : σ → Bool) (body : σ → σ) (Inv : σ → Prop)
    (hstep : ∀ s, Inv s → cond s = true → Inv (body s)) :
    ∀ (fuel : Nat) (s s' : σ), Inv s → whileFuel cond body fuel s = some s' →
      Inv s' ∧ cond s' = false := by
  intro fuel
  induction fuel with
  | zero =>
    intro s s' hs h
    cases hc : cond s with
    | true => rw [whileFuel_zero cond body s hc] at h; cases h
    | false =>
      rw [whileFuel_of_false cond body 0 s hc] at h
      cases h; exact ⟨hs, hc⟩
  | succ fuel ih =>
    intro s s' hs h
    cases hc : cond s with
    | true =>
      rw [whileFuel_succ cond body fuel s hc] at h
      exact ih (body s) s' (hstep s hs hc) h
    | false =>
      rw [whileFuel_of_false cond body (fuel + 1) s hc] at h
      cases h; exact ⟨hs, hc⟩

/-- A loop whose body decreases a measure under an invariant returns once the
fuel covers the measure. -/
theorem whileFuel_returns (cond : σ → Bool) (body : σ → σ) (Inv : σ → Prop)
    (μ : σ → Nat)
    (hstep : ∀ s, Inv s → cond s = true → Inv (body s) ∧ μ (body s) < μ s) :
    ∀ (fuel : Nat) (s : σ), Inv s → μ s ≤ fuel →
      ∃ s', whileFuel cond body fuel s = some s' := by
  intro fuel
  induction fuel with
  | zero =>
    intro s hs hμ
    cases hc : cond s with
    | true => have := (hstep s hs hc).2; omega
    | false => exact ⟨s, whileFuel_of_false cond body 0 s hc⟩
  | succ fuel ih =>
    intro s hs hμ
    cases hc : cond s with
    | true =>
      rw [whileFuel_succ cond body fuel s hc]
      have h := hstep s hs hc
      exact ih (body s) h.1 (by omega)
    | false => exact ⟨s, whileFuel_of_false cond body (fuel + 1) s hc⟩

/-- A loop whose condition holds along the first `n` iterates of the body and
fails at the `n`-th returns that iterate when given at least `n` units of fuel,
and runs out of fuel otherwise. -/
theorem whileFuel_iterate (cond : σ → Bool) (body : σ → σ) :
    ∀ (n fuel : Nat) (s : σ), (∀ k, k < n → cond (body^[k] s) = true) →
      cond (body^[n] s) = false →
      whileFuel cond body fuel s = if n ≤ fuel then some (body^[n] s) else none := by
  intro n
  induction n with
  | zero =>
    intro fuel s _ hn
    simp only [Function.iterate_zero, id_eq] at hn
    simp [whileFuel_of_false cond body fuel s hn]
  | succ n ih =>
    intro fuel s hk hn
    have h0 : cond s = true := by simpa using hk 0 (Nat.succ_pos n)
    cases fuel with
    | zero => simp [whileFuel_zero cond body s h0]
    | succ fuel =>
      rw [whileFuel_succ cond body fuel s h0, ih fuel (body s)]
      · simp [Function.iterate_succ_apply]
      · intro k hkn
        have := hk (k + 1) (by omega)
        simpa [Function.iterate_succ_apply] using this
      · simpa [Function.iterate_succ_apply] using hn

end while_lemmas

/-! ## Lemmas on `problem_init` -/

section init_lemmas

variable {K : Type} [LinearOrderedField K]

theorem problem_init_config_ok (bx by_ : K) (s : Sim K) :
    config_ok bx by_ s.G (problem_init_config bx by_ s) := by
  simp [config_ok, problem_init_config, init_box]

theorem massive_body_cases (tu : Nat → K → K → K) (s : Sim K) :
    (massive_body tu s = { s with calls := s.calls + 1 + 1 } ∧
        |tu (s.calls + 1) (-s.boxsize_y / 2) (s.boxsize_y / 2)| < s.boxsize_y / 16) ∨
      (massive_body tu s
          = particles_add { s with calls := s.calls + 1 + 1 }
              (massive_pt tu s.boxsize_x s.boxsize_y s.calls (s.calls + 1)) ∧
        ¬ |tu (s.calls + 1) (-s.boxsize_y / 2) (s.boxsize_y / 2)| < s.boxsize_y / 16) := by
  by_cases h : |tu (s.calls + 1) (-s.boxsize_y / 2) (s.boxsize_y / 2)| < s.boxsize_y / 16
  · left; exact ⟨by simp [massive_body, h], h⟩
  · right; exact ⟨by simp [massive_body, h, massive_pt], h⟩

theorem massive_body_inv (tu : Nat → K → K → K) (bx by_ g : K) (P : particle K → Prop)
    (hP : ∀ n k, ¬ |tu k (-by_ / 2) (by_ / 2)| < by_ / 16 → P (massive_pt tu bx by_ n k))
    (s : Sim K) (hs : massive_inv bx by_ g P s) (hc : s.N < 200) :
    massive_inv bx by_ g P (massive_body tu s) := by
  obtain ⟨hcfg, hlen, _, hall⟩ := hs
  have hbx : s.boxsize_x = bx := hcfg.2.1
  have hby : s.boxsize_y = by_ := hcfg.2.2.1
  rcases massive_body_cases tu s with ⟨h, _⟩ | ⟨h, hacc⟩
  · rw [h]
    exact ⟨hcfg, hlen, by simpa using hc.le, hall⟩
  · rw [h]
    refine ⟨hcfg, ?_, ?_, ?_⟩
    · simp [particles_add, hlen]
    · simp only [particles_add]; omega
    · intro p hp
      simp only [particles_add, List.mem_append, List.mem_singleton] at hp
      rcases hp with hp | hp
      · exact hall p hp
      · rw [hp, hbx, hby]
        rw [hby] at hacc
        exact hP _ _ hacc

theorem test_body_eq (tu : Nat → K → K → K) (s : Sim K) :
    test_body tu s
      = particles_add { s with calls := s.calls + 1 } (test_pt tu s.boxsize_x s.boxsize_y s.calls) := by
  simp [test_body, test_pt]

theorem test_body_inv (tu : Nat → K → K → K) (bx by_ g : K) (Q : particle K → Prop)
    (hQ : ∀ n, Q (test_pt tu bx by_ n)) (base : List (particle K))
    (s : Sim K) (hs : test_inv bx by_ g Q base s) (hc : s.N < 300) :
    test_inv bx by_ g Q base (test_body tu s) := by
  obtain ⟨hcfg, hlen, _, hna, L, hL, hall⟩ := hs
  have hbx : s.boxsize_x = bx := hcfg.2.1
  have hby : s.boxsize_y = by_ := hcfg.2.2.1
  rw [test_body_eq]
  refine ⟨hcfg, ?_, ?_, hna, L ++ [test_pt tu bx by_ s.calls], ?_, ?_⟩
  · simp [particles_add, hlen]
  · simp only [particles_add]; omega
  · simp [particles_add, hL, hbx, hby]
  · intro p hp
    simp only [List.mem_append, List.mem_singleton] at hp
    rcases hp with hp | hp
    · exact hall p hp
    · rw [hp]; exact hQ _

/-- The structure of the state on which `energy` is called: the first loop
leaves 200 particles satisfying `P`, the second adds 100 satisfying `Q`. -/
theorem problem_init_particles_spec (tu : Nat → K → K → K) (bx by_ : K)
    (P Q : particle K → Prop)
    (hP : ∀ n k, ¬ |tu k (-by_ / 2) (by_ / 2)| < by_ / 16 → P (massive_pt tu bx by_ n k))
    (hQ : ∀ n, Q (test_pt tu bx by_ n))
    (fuel : Nat) (s0 s : Sim K) (hN : s0.N = 0) (hstore : s0.particles = [])
    (h : problem_init_particles tu bx by_ fuel s0 = some s) :
    ∃ s1, problem_init_massive tu bx by_ fuel s0 = some s1 ∧
      s1.N = 200 ∧ s1.N_active = 200 ∧ s1.particles = s.particles.take 200 ∧
      config_ok bx by_ s0.G s ∧ s.N = 300 ∧ s.N_active = 200 ∧
      s.particles.length = 300 ∧
      (∀ p ∈ s.particles.take 200, P p) ∧ (∀ p ∈ s.particles.drop 200, Q p) := by
  unfold problem_init_particles at h
  cases h1 : problem_init_massive tu bx by_ fuel s0 with
  | none => rw [h1] at h; cases h
  | some s1 =>
    rw [h1] at h
    simp only [Option.some_bind] at h
    unfold problem_init_massive at h1
    cases hw : whileFuel (fun s => decide (s.N < 200)) (massive_body tu) fuel
        (problem_init_config bx by_ s0) with
    | none => rw [hw] at h1; cases h1
    | some w =>
      rw [hw] at h1
      simp only [Option.map_some', Option.some.injEq] at h1
      have hinit : massive_inv bx by_ s0.G P (problem_init_config bx by_ s0) := by
        refine ⟨problem_init_config_ok bx by_ s0, ?_, ?_, ?_⟩
        · simp [problem_init_config, init_box, hN, hstore]
        · simp [problem_init_config, init_box, hN]
        · simp [problem_init_config, init_box, hstore]
      obtain ⟨⟨wcfg, wlen, wle, wall⟩, wc⟩ :=
        whileFuel_inv _ _ (massive_inv bx by_ s0.G P)
          (fun t ht hc => massive_body_inv tu bx by_ s0.G P hP t ht (by simpa using hc))
          fuel _ w hinit hw
      have wN : w.N = 200 := by
        have : ¬ w.N < 200 := by simpa using wc
        omega
      have hs1 : test_inv bx by_ s0.G Q w.particles s1 := by
        subst h1
        exact ⟨wcfg, wlen, by simp [wN], wN, [], by simp, by simp⟩
      obtain ⟨⟨scfg, slen, sle, sna, L, hL, hall⟩, sc⟩ :=
        whileFuel_inv _ _ (test_inv bx by_ s0.G Q w.particles)
          (fun t ht hc => test_body_inv tu bx by_ s0.G Q hQ w.particles t ht (by simpa using hc))
          fuel s1 s hs1 h
      have sN : s.N = 300 := by
        have : ¬ s.N < 300 := by simpa using sc
        omega
      have wl : w.particles.length = 200 := by omega
      have htake : s.particles.take 200 = w.particles := by
        rw [hL, ← wl]; simp
      have hdrop : s.particles.drop 200 = L := by
        rw [hL, ← wl]; simp
      refine ⟨s1, rfl, ?_, ?_, ?_, scfg, sN, sna, by omega, ?_, ?_⟩
      · subst h1; exact wN
      · subst h1; exact wN
      · subst h1; exact htake.symm
      · rw [htake]; exact wall
      · rw [hdrop]; exact hall

/-- The state returned by `problem_init` is the state on which `energy` was
called, with `energy_init` set to the value it returned. -/
theorem problem_init_eq (sqrt : K → K) (tu : Nat → K → K → K) (bx by_ : K)
    (fuel : Nat) (s0 s : Sim K) (h : problem_init sqrt tu bx by_ fuel s0 = some s) :
    ∃ t, problem_init_particles tu bx by_ fuel s0 = some t ∧
      s = { t with energy_init := (energy sqrt t).1 } := by
  unfold problem_init at h
  cases ht : problem_init_particles tu bx by_ fuel s0 with
  | none => rw [ht] at h; cases h
  | some t =>
    rw [ht] at h
    simp only [Option.map_some', Option.some.injEq] at h
    refine ⟨t, rfl, ?_⟩
    rw [← h, energy_eq]

end init_lemmas

section returns_lemmas

variable {K : Type} [LinearOrderedField K]

/-- When no sample of the first loop is rejected, `problem_init` returns with
any fuel of at least 200. -/
theorem problem_init_returns (sqrt : K → K) (tu : Nat → K → K → K) (bx by_ : K)
    (hacc : ∀ k, ¬ |tu k (-by_ / 2) (by_ / 2)| < by_ / 16)
    (fuel : Nat) (hf : 200 ≤ fuel) (s0 : Sim K) (hN : s0.N = 0) :
    ∃ s, problem_init sqrt tu bx by_ fuel s0 = some s := by
  have hstep1 : ∀ t : Sim K, (t.boxsize_y = by_ ∧ t.N ≤ 200) →
      (fun t : Sim K => decide (t.N < 200)) t = true →
      ((massive_body tu t).boxsize_y = by_ ∧ (massive_body tu t).N ≤ 200) ∧
        200 - (massive_body tu t).N < 200 - t.N := by
    intro t ht hc
    have hc' : t.N < 200 := by simpa using hc
    rcases massive_body_cases tu t with ⟨_, hrej⟩ | ⟨h, _⟩
    · rw [ht.1] at hrej
      exact absurd hrej (hacc _)
    · rw [h]
      simp only [particles_add]
      exact ⟨⟨ht.1, by omega⟩, by omega⟩
  have hinit : (problem_init_config bx by_ s0).boxsize_y = by_ ∧
      (problem_init_config bx by_ s0).N ≤ 200 := by
    simp [problem_init_config, init_box, hN]
  obtain ⟨w, hw⟩ := whileFuel_returns _ (massive_body tu)
    (fun t : Sim K => t.boxsize_y = by_ ∧ t.N ≤ 200) (fun t => 200 - t.N) hstep1 fuel
    (problem_init_config bx by_ s0) hinit (by simp only; omega)
  have hstep2 : ∀ t : Sim K, True → (fun t : Sim K => decide (t.N < 300)) t = true →
      True ∧ 300 - (test_body tu t).N < 300 - t.N := by
    intro t _ hc
    have hc' : t.N < 300 := by simpa using hc
    rw [test_body_eq]
    simp only [particles_add]
    exact ⟨trivial, by omega⟩
  have hwN : ¬ w.N < 200 := by
    have := (whileFuel_inv _ (massive_body tu) (fun _ => True) (fun _ _ _ => trivial)
      fuel _ w trivial hw).2
    simpa using this
  obtain ⟨t, ht⟩ := whileFuel_returns _ (test_body tu) (fun _ => True)
    (fun t => 300 - t.N) hstep2 fuel { w with N_active := w.N } trivial (by simp only; omega)
  have hp : problem_init_particles tu bx by_ fuel s0 = some t := by
    simp only [problem_init_particles, problem_init_massive, hw, Option.map_some',
      Option.some_bind, ht]
  exact ⟨_, by rw [problem_init, hp, Option.map_some']⟩

theorem upperSampler_accepts (by_ : K) (k : Nat) :
    ¬ |upperSampler K k (-by_ / 2) (by_ / 2)| < by_ / 16 := by
  simp only [upperSampler, not_lt]
  rcases le_total 0 by_ with h | h
  · rw [abs_of_nonneg (by linarith)]; linarith
  · exact le_trans (by linarith) (abs_nonneg _)

theorem upperSampler_in_range : uniform_in_range (upperSampler K) := by
  intro n a b hab
  exact ⟨hab, le_refl b⟩

end returns_lemmas

/-! ## Concrete evaluations -/

theorem qsqrt_25 : qsqrt 25 = 5 := by
  have h : Nat.sqrt 25 = 5 := Nat.sqrt_eq 5
  simp [qsqrt, h]

theorem twoBody_pair_r : pair_r qsqrt twoBody 1 0 = 5 := by
  have h : (3 : ℚ) * 3 + 4 * 4 = 25 := by norm_num
  simp [pair_r, twoBody, emptySim, Sim.get, h, qsqrt_25]

theorem twoBody_separated : separated qsqrt twoBody := by
  intro i j hi hi' hj
  have hi1 : i = 1 := by simp only [twoBody] at hi hi'; omega
  have hj0 : j = 0 := by simp only [twoBody] at hj; omega
  subst hi1 hj0
  rw [twoBody_pair_r]
  norm_num

theorem twoBody_energy : (energy qsqrt twoBody).1 = 249 / 5 := by
  have hr : List.range' twoBody.N_active (twoBody.N - twoBody.N_active) = [1] := by
    simp [twoBody]
  have hn : List.range twoBody.N_active = [0] := by
    simp [twoBody, List.range_succ]
  rw [energy_eq, hr]
  simp only [List.map_cons, List.map_nil, List.sum_cons, List.sum_nil, row_term, hn, pair_term,
    twoBody_pair_r]
  simp [twoBody, emptySim, Sim.get]
  norm_num

theorem twoBody_spec_energy : spec_kinetic twoBody + spec_potential qsqrt twoBody = 0 := by
  have hI : Finset.Ico twoBody.N_active twoBody.N = {1} := by
    simp only [twoBody]; rfl
  simp only [spec_kinetic, spec_potential, hI, Finset.sum_singleton]
  simp [twoBody, emptySim, Sim.get]

section helper_lemmas

variable {K : Type} [LinearOrderedField K]

theorem energy_val_formula (sqrt : K → K) (s : Sim K) (h : s.N_active ≤ s.N) :
    (energy sqrt s).1 = ∑ i in Finset.Ico s.N_active s.N,
      (0.5 * speed_sq s i + ∑ j in Finset.range s.N_active,
        -s.G * (s.get j).m / sqrt (dist_sq s i j + s.softening ^ 2)) := by
  rw [energy_val sqrt s h]
  apply Finset.sum_congr rfl
  intro i hi
  exact row_term_eq sqrt s i (Finset.mem_Ico.mp hi).1

/-- The value of `energy` does not read `energy_init`. -/
theorem energy_set_energy_init (sqrt : K → K) (t : Sim K) (e : K) :
    (energy sqrt { t with energy_init := e }).1 = (energy sqrt t).1 := by
  simp only [energy_eq]
  rfl

/-- The loops of `problem_init` keep the configuration of lines 50-56. -/
theorem problem_init_particles_config (tu : Nat → K → K → K) (bx by_ : K)
    (fuel : Nat) (s0 s : Sim K) (h : problem_init_particles tu bx by_ fuel s0 = some s) :
    config_ok bx by_ s0.G s := by
  unfold problem_init_particles problem_init_massive at h
  cases hw : whileFuel (fun s => decide (s.N < 200)) (massive_body tu) fuel
      (problem_init_config bx by_ s0) with
  | none => rw [hw] at h; cases h
  | some w =>
    rw [hw] at h
    simp only [Option.map_some', Option.some_bind] at h
    have hw1 := (whileFuel_inv _ (massive_body tu) (config_ok bx by_ s0.G) (by
      intro t ht _
      rcases massive_body_cases tu t with ⟨h, _⟩ | ⟨h, _⟩ <;> rw [h] <;> exact ht)
      fuel _ w (problem_init_config_ok bx by_ s0) hw).1
    exact (whileFuel_inv _ (test_body tu) (config_ok bx by_ s0.G) (by
      intro t ht _
      rw [test_body_eq]; exact ht) fuel _ s
      (show config_ok bx by_ s0.G { w with N_active := w.N } from hw1) h).1

theorem getD_mem_take {α : Type} (l : List α) (d : α) (n i : Nat) (h1 : i < n)
    (h2 : i < l.length) : l.getD i d ∈ l.take n := by
  have hi : i < (l.take n).length := by simp [List.length_take]; omega
  have : l.getD i d = (l.take n)[i] := by
    rw [List.getD_eq_getElem l d h2, List.getElem_take]
  rw [this]
  exact List.getElem_mem hi

theorem getD_mem_drop {α : Type} (l : List α) (d : α) (n i : Nat) (h1 : n ≤ i)
    (h2 : i < l.length) : l.getD i d ∈ l.drop n := by
  have hi : i - n < (l.drop n).length := by simp [List.length_drop]; omega
  have : l.getD i d = (l.drop n)[i - n] := by
    rw [List.getD_eq_getElem l d h2, List.getElem_drop]
    congr 1; omega
  rw [this]
  exact List.getElem_mem hi

end helper_lemmas

/-! ## The claims -/

section claims

variable {K : Type} [LinearOrderedField K]

/-- C1 (as the code has it): for every store with `N_active ≤ N` and non-zero
pair separations, `energy` returns the energy of the test-particle range
`[N_active, N)` per unit test-particle mass: the kinetic term is the sum of
`0.5 * (vx² + vy² + vz²)` over the range and the potential term is the sum of
`-G * m_j / sqrt(|r_i - r_j|² + softening²)` over `i` in the range and `j` in
`[0, N_active)`; the factor `m_i` of the spec's formula is absent. -/
theorem energy_is_specific_energy (sqrt : K → K) (s : Sim K) (hN : s.N_active ≤ s.N)
    (_hsep : separated sqrt s) :
    (energy sqrt s).1 = specific_kinetic s + specific_potential sqrt s := by
  rw [energy_val_formula sqrt s hN, specific_kinetic, specific_potential,
    Finset.sum_add_distrib]

/-- C1, witness: the two-body store. -/
theorem energy_is_specific_energy_witness :
    twoBody.N_active ≤ twoBody.N ∧ separated qsqrt twoBody ∧
      (energy qsqrt twoBody).1 = specific_kinetic twoBody + specific_potential qsqrt twoBody :=
  ⟨by decide, twoBody_separated,
    energy_is_specific_energy qsqrt twoBody (by decide) twoBody_separated⟩

/-- C1, counterexample: on the two-body store (one unit mass at the origin, one
massless test particle at distance 5 moving at speed 10) `energy` returns
`-1/5 + 50 = 249/5`, while the spec's mass-weighted total is 0. -/
theorem energy_total_counterexample :
    twoBody.N_active ≤ twoBody.N ∧ separated qsqrt twoBody ∧
      (energy qsqrt twoBody).1 = 249 / 5 ∧
      spec_kinetic twoBody + spec_potential qsqrt twoBody = 0 ∧
      (energy qsqrt twoBody).1 ≠ spec_kinetic twoBody + spec_potential qsqrt twoBody := by
  refine ⟨by decide, twoBody_separated, twoBody_energy, twoBody_spec_energy, ?_⟩
  rw [twoBody_energy, twoBody_spec_energy]
  norm_num

/-- C8: for every store with `N_active ≤ N` and non-zero separations, `energy`
returns the sum over `i` in `[N_active, N)` of
`0.5 * (vx_i² + vy_i² + vz_i²) + Σ_{j < N_active} -G * m_j / sqrt(dx² + dy² + dz² + softening²)`;
the `i == j` skip is never taken; and the value is the same on every store that
agrees on `N`, `N_active`, `G`, `softening`, all positions, the velocities of
`[N_active, N)` and the masses of `[0, N_active)`, so it depends neither on the
masses of `[N_active, N)` nor on the velocities of `[0, N_active)`. -/
theorem energy_formula (sqrt : K → K) (s : Sim K) (hN : s.N_active ≤ s.N)
    (_hsep : separated sqrt s) :
    (energy sqrt s).1 = (∑ i in Finset.Ico s.N_active s.N,
        (0.5 * ((s.get i).vx ^ 2 + (s.get i).vy ^ 2 + (s.get i).vz ^ 2)
          + ∑ j in Finset.range s.N_active,
              -s.G * (s.get j).m /
                sqrt (((s.get i).x - (s.get j).x) ^ 2 + ((s.get i).y - (s.get j).y) ^ 2
                  + ((s.get i).z - (s.get j).z) ^ 2 + s.softening ^ 2))) ∧
      (∀ i j, s.N_active ≤ i → j < s.N_active → i ≠ j) ∧
      (∀ i j (e : K), s.N_active ≤ i → j < s.N_active →
        energy_inner sqrt i (e, s) j = (e + -s.G / pair_r sqrt s i j * (s.get j).m, s)) ∧
      ∀ s' : Sim K, s'.N = s.N → s'.N_active = s.N_active → s'.G = s.G →
        s'.softening = s.softening →
        (∀ i, (s'.get i).x = (s.get i).x ∧ (s'.get i).y = (s.get i).y ∧
          (s'.get i).z = (s.get i).z) →
        (∀ i, s.N_active ≤ i → i < s.N → (s'.get i).vx = (s.get i).vx ∧
          (s'.get i).vy = (s.get i).vy ∧ (s'.get i).vz = (s.get i).vz) →
        (∀ j, j < s.N_active → (s'.get j).m = (s.get j).m) →
        (energy sqrt s').1 = (energy sqrt s).1 := by
  refine ⟨energy_val_formula sqrt s hN, ?_, ?_, ?_⟩
  · intro i j hi hj
    omega
  · intro i j e hi hj
    have hne : i ≠ j := by omega
    simp [energy_inner, hne]
  · intro s' h1 h2 h3 h4 hpos hvel hm
    rw [energy_val_formula sqrt s hN, energy_val_formula sqrt s' (by omega), h1, h2]
    apply Finset.sum_congr rfl
    intro i hi
    have hi' := Finset.mem_Ico.mp hi
    have hv := hvel i hi'.1 hi'.2
    congr 1
    · simp only [speed_sq, hv.1, hv.2.1, hv.2.2]
    · apply Finset.sum_congr rfl
      intro j hj
      have hj' := Finset.mem_range.mp hj
      simp only [dist_sq, hpos i, hpos j, hm j hj', h3, h4]

/-- C8, witness: the two-body store and its variant with test mass 7 and
active velocity `(1, 2, 3)` have the same energy. -/
theorem energy_formula_witness :
    twoBody.N_active ≤ twoBody.N ∧ separated qsqrt twoBody ∧
      (energy qsqrt twoBodyVariant).1 = (energy qsqrt twoBody).1 := by
  refine ⟨by decide, twoBody_separated,
    (energy_formula qsqrt twoBody (by decide) twoBody_separated).2.2.2 twoBodyVariant
      rfl rfl rfl rfl ?_ ?_ ?_⟩
  · intro i
    rcases i with _ | _ | i <;> simp [twoBody, twoBodyVariant, emptySim, Sim.get]
  · intro i h1 h2
    have hi : i = 1 := by simp only [twoBody] at h1 h2; omega
    subst hi
    simp [twoBody, twoBodyVariant, emptySim, Sim.get]
  · intro j hj
    have hj0 : j = 0 := by simp only [twoBody] at hj; omega
    subst hj0
    simp [twoBody, twoBodyVariant, emptySim, Sim.get]

/-- C5: `energy` is a pure function of the state: the state after the call is
the state before it (every particle field, `N`, `N_active`, `G`, `softening`
and all other globals), a second call returns the same value, and on a state
returned by `problem_init` a repeated evaluation equals `energy_init`. -/
theorem energy_pure (sqrt : K → K) (s : Sim K) :
    (energy sqrt s).2 = s ∧
      (energy sqrt (energy sqrt s).2).1 = (energy sqrt s).1 ∧
      ∀ (tu : Nat → K → K → K) (bx by_ : K) (fuel : Nat) (s0 : Sim K),
        problem_init sqrt tu bx by_ fuel s0 = some s → (energy sqrt s).1 = s.energy_init := by
  have h2 : (energy sqrt s).2 = s := by rw [energy_eq]
  refine ⟨h2, by rw [h2], ?_⟩
  intro tu bx by_ fuel s0 h
  obtain ⟨t, _, hs⟩ := problem_init_eq sqrt tu bx by_ fuel s0 s h
  rw [hs, energy_set_energy_init]

/-- C5, witness: a run of `problem_init` on the empty store. -/
theorem energy_pure_witness :
    ∃ s, problem_init qsqrt (upperSampler ℚ) 100 100 300 (emptySim ℚ) = some s ∧
      (energy qsqrt s).2 = s ∧ (energy qsqrt s).1 = s.energy_init := by
  obtain ⟨s, hs⟩ := problem_init_returns qsqrt (upperSampler ℚ) 100 100
    (upperSampler_accepts 100) 300 (by decide) (emptySim ℚ) rfl
  exact ⟨s, hs, (energy_pure qsqrt s).1, (energy_pure qsqrt s).2.2 _ _ _ _ _ hs⟩

/-- C2 (as the code has it): after `problem_init`, with `init_box` giving
`boxsize_x = boxsize = 100`, the end time is
`tmax = boxsize_x / (4 * velocity)` with `velocity = 10`, that is `5/2`, and
the timestep is `dt = 1/100`. -/
theorem problem_init_times (sqrt : K → K) (tu : Nat → K → K → K) (by_ : K)
    (fuel : Nat) (s0 s : Sim K) (h : problem_init sqrt tu 100 by_ fuel s0 = some s) :
    s.boxsize = 100 ∧ s.boxsize_x = s.boxsize ∧ s.tmax = s.boxsize_x / (4 * 10) ∧
      s.tmax = 5 / 2 ∧ s.dt = 1 / 100 := by
  obtain ⟨t, ht, hs⟩ := problem_init_eq sqrt tu 100 by_ fuel s0 s h
  obtain ⟨c1, c2, _, _, c5, c6, _⟩ := problem_init_particles_config tu 100 by_ fuel s0 t ht
  subst hs
  simp only [c1, c2, c5, c6]
  norm_num

/-- C2, witness: a run of `problem_init` on the empty store. -/
theorem problem_init_times_witness :
    ∃ s, problem_init qsqrt (upperSampler ℚ) 100 100 300 (emptySim ℚ) = some s ∧
      s.tmax = 5 / 2 ∧ s.dt = 1 / 100 := by
  obtain ⟨s, hs⟩ := problem_init_returns qsqrt (upperSampler ℚ) 100 100
    (upperSampler_accepts 100) 300 (by decide) (emptySim ℚ) rfl
  have h := problem_init_times qsqrt (upperSampler ℚ) 100 300 (emptySim ℚ) s hs
  exact ⟨s, hs, h.2.2.2.1, h.2.2.2.2⟩

/-- C2, counterexample: a run of `problem_init` with `boxsize_x = 100` ends with
`tmax = 5/2`, not `boxsize_x / (4 * 4 * velocity) = 5/8`. -/
theorem problem_init_tmax_counterexample :
    ∃ s, problem_init qsqrt (upperSampler ℚ) 100 100 300 (emptySim ℚ) = some s ∧
      s.boxsize_x = 100 ∧ s.tmax = 5 / 2 ∧ s.tmax ≠ s.boxsize_x / (4 * 4 * 10) := by
  obtain ⟨s, hs⟩ := problem_init_returns qsqrt (upperSampler ℚ) 100 100
    (upperSampler_accepts 100) 300 (by decide) (emptySim ℚ) rfl
  obtain ⟨t, ht, hst⟩ := problem_init_eq qsqrt (upperSampler ℚ) 100 100 300 (emptySim ℚ) s hs
  obtain ⟨_, c2, _, _, _, c6, _⟩ :=
    problem_init_particles_config (upperSampler ℚ) 100 100 300 (emptySim ℚ) t ht
  subst hst
  refine ⟨_, hs, c2, ?_, ?_⟩
  · simp only [c6]; norm_num
  · simp only [c6, c2]; norm_num

/-- C3: when the store starts empty, `particles_add` appends and increments `N`,
and `tools_uniform(a, b)` returns a value in `[a, b]` (box extents
non-negative), every run of `problem_init` that returns leaves exactly 300
particles: the first 200 have mass 1, zero velocity, `z = 0`,
`|x| ≤ boxsize_x/16` and `|y| ≥ boxsize_y/16`; the last 100 have mass 0,
`x = -boxsize_x/8`, `|y| ≤ boxsize_y/32`, `z = 0` and velocity `(10, 0, 0)`. -/
theorem problem_init_store (sqrt : K → K) (tu : Nat → K → K → K) (bx by_ : K)
    (fuel : Nat) (s0 s : Sim K) (hu : uniform_in_range tu) (hbx : 0 ≤ bx) (hby : 0 ≤ by_)
    (hN : s0.N = 0) (hstore : s0.particles = [])
    (h : problem_init sqrt tu bx by_ fuel s0 = some s) :
    s.N = 300 ∧ s.particles.length = 300 ∧ s.boxsize_x = bx ∧ s.boxsize_y = by_ ∧
      (∀ p ∈ s.particles.take 200,
        p.m = 1 ∧ p.vx = 0 ∧ p.vy = 0 ∧ p.vz = 0 ∧ p.z = 0 ∧
          |p.x| ≤ s.boxsize_x / 16 ∧ s.boxsize_y / 16 ≤ |p.y|) ∧
      (∀ p ∈ s.particles.drop 200,
        p.m = 0 ∧ p.x = -s.boxsize_x / 8 ∧ |p.y| ≤ s.boxsize_y / 32 ∧ p.z = 0 ∧
          p.vx = 10 ∧ p.vy = 0 ∧ p.vz = 0) := by
  obtain ⟨t, ht, hs⟩ := problem_init_eq sqrt tu bx by_ fuel s0 s h
  have hP : ∀ n k, ¬ |tu k (-by_ / 2) (by_ / 2)| < by_ / 16 →
      is_massive bx by_ (massive_pt tu bx by_ n k) := by
    intro n k hacc
    have hx := hu n (-bx / 16) (bx / 16) (by linarith)
    refine ⟨rfl, rfl, rfl, rfl, rfl, ?_, not_lt.mp hacc⟩
    simp only [massive_pt]
    exact abs_le.mpr ⟨by linarith [hx.1], hx.2⟩
  have hQ : ∀ n, is_test bx by_ (test_pt tu bx by_ n) := by
    intro n
    have hy := hu n (-by_ / 32) (by_ / 32) (by linarith)
    refine ⟨rfl, rfl, ?_, rfl, rfl, rfl, rfl⟩
    simp only [test_pt]
    exact abs_le.mpr ⟨by linarith [hy.1], hy.2⟩
  obtain ⟨_, _, _, _, _, hcfg, tN, _, tlen, tP, tQ⟩ :=
    problem_init_particles_spec tu bx by_ (is_massive bx by_) (is_test bx by_) hP hQ
      fuel s0 t hN hstore ht
  have hbx' : t.boxsize_x = bx := hcfg.2.1
  have hby' : t.boxsize_y = by_ := hcfg.2.2.1
  subst hs
  refine ⟨tN, tlen, hbx', hby', ?_, ?_⟩
  · intro p hp
    simp only [hbx', hby']
    exact tP p hp
  · intro p hp
    simp only [hbx', hby']
    exact tQ p hp

/-- C3, witness: a run of `problem_init` on the empty store with box extents
100 and the sampler that returns the upper end of each interval. -/
theorem problem_init_store_witness :
    ∃ s, problem_init qsqrt (upperSampler ℚ) 100 100 300 (emptySim ℚ) = some s ∧
      s.N = 300 ∧ s.particles.length = 300 ∧
      (∀ p ∈ s.particles.take 200, p.m = 1 ∧ |p.x| ≤ s.boxsize_x / 16 ∧
        s.boxsize_y / 16 ≤ |p.y|) ∧
      (∀ p ∈ s.particles.drop 200, p.m = 0 ∧ p.x = -s.boxsize_x / 8 ∧ p.vx = 10) := by
  obtain ⟨s, hs⟩ := problem_init_returns qsqrt (upperSampler ℚ) 100 100
    (upperSampler_accepts 100) 300 (by decide) (emptySim ℚ) rfl
  have h := problem_init_store qsqrt (upperSampler ℚ) 100 100 300 (emptySim ℚ) s
    upperSampler_in_range (by norm_num) (by norm_num) rfl rfl hs
  refine ⟨s, hs, h.1, h.2.1, ?_, ?_⟩
  · intro p hp
    have := h.2.2.2.2.1 p hp
    exact ⟨this.1, this.2.2.2.2.2.1, this.2.2.2.2.2.2⟩
  · intro p hp
    have := h.2.2.2.2.2 p hp
    exact ⟨this.1, this.2.1, this.2.2.2.2.1⟩

/-- C4: the state produced by `problem_init` satisfies the active-count
invariant: `N_active = 200 ≤ N = 300`, every particle with index in
`[N_active, N)` has mass 0, and the store at the moment `N_active` was fixed is
exactly the prefix of length `N_active` of the final store. -/
theorem problem_init_active_count (sqrt : K → K) (tu : Nat → K → K → K) (bx by_ : K)
    (fuel : Nat) (s0 s : Sim K) (hN : s0.N = 0) (hstore : s0.particles = [])
    (h : problem_init sqrt tu bx by_ fuel s0 = some s) :
    s.N_active ≤ s.N ∧ s.N_active = 200 ∧ s.N = 300 ∧ s.particles.length = s.N ∧
      (∀ i, s.N_active ≤ i → i < s.N → (s.get i).m = 0) ∧
      ∃ s1, problem_init_massive tu bx by_ fuel s0 = some s1 ∧
        s1.N_active = s1.N ∧ s1.N = s.N_active ∧
        s1.particles = s.particles.take s.N_active := by
  obtain ⟨t, ht, hs⟩ := problem_init_eq sqrt tu bx by_ fuel s0 s h
  obtain ⟨s1, h1, s1N, s1A, s1P, _, tN, tA, tlen, _, tQ⟩ :=
    problem_init_particles_spec tu bx by_ (fun _ => True) (fun p => p.m = 0)
      (fun _ _ _ => trivial) (fun _ => rfl) fuel s0 t hN hstore ht
  subst hs
  refine ⟨?_, tA, tN, ?_, ?_, s1, h1, ?_, ?_, ?_⟩
  · show t.N_active ≤ t.N
    omega
  · show t.particles.length = t.N
    omega
  · intro i hi hi'
    have hi1 : 200 ≤ i := by
      have : t.N_active ≤ i := hi
      omega
    have hi2 : i < t.particles.length := by
      have : i < t.N := hi'
      omega
    exact tQ _ (getD_mem_drop t.particles (particle.zero K) 200 i hi1 hi2)
  · omega
  · show s1.N = t.N_active
    omega
  · show s1.particles = t.particles.take t.N_active
    rw [tA]; exact s1P

/-- C4, witness: a run of `problem_init` on the empty store. -/
theorem problem_init_active_count_witness :
    ∃ s, problem_init qsqrt (upperSampler ℚ) 100 100 300 (emptySim ℚ) = some s ∧
      s.N_active ≤ s.N ∧ s.N_active = 200 ∧ s.N = 300 ∧
      (∀ i, s.N_active ≤ i → i < s.N → (s.get i).m = 0) := by
  obtain ⟨s, hs⟩ := problem_init_returns qsqrt (upperSampler ℚ) 100 100
    (upperSampler_accepts 100) 300 (by decide) (emptySim ℚ) rfl
  have h := problem_init_active_count qsqrt (upperSampler ℚ) 100 100 300 (emptySim ℚ) s
    rfl rfl hs
  exact ⟨s, hs, h.1, h.2.1, h.2.2.1, h.2.2.2.2.1⟩

/-- C9: although `problem_init` sets `softening = 0`, the energy evaluation of
line 86 never divides by zero. With `boxsize_x = 100` and `tools_uniform(a, b)`
returning a value in `[a, b]`, on the state `t` on which `energy` is called
every test particle `i` in `[N_active, N)` and every active particle `j`
satisfy `|x_i - x_j| ≥ boxsize_x/16 > 0`, and the value `r` computed for the
pair with the real square root is at least `boxsize_x/16`, so it is non-zero. -/
theorem problem_init_energy_defined (tu : Nat → ℝ → ℝ → ℝ) (by_ : ℝ) (fuel : Nat)
    (s0 s : Sim ℝ) (hu : uniform_in_range tu) (hN : s0.N = 0) (hstore : s0.particles = [])
    (h : problem_init Real.sqrt tu 100 by_ fuel s0 = some s) :
    ∃ t, problem_init_particles tu 100 by_ fuel s0 = some t ∧
      s = { t with energy_init := (energy Real.sqrt t).1 } ∧
      t.softening = 0 ∧ t.boxsize_x = 100 ∧ 0 < t.boxsize_x / 16 ∧
      (∀ i j, t.N_active ≤ i → i < t.N → j < t.N_active →
        t.boxsize_x / 16 ≤ |(t.get i).x - (t.get j).x| ∧
        t.boxsize_x / 16 ≤ pair_r Real.sqrt t i j) ∧
      separated Real.sqrt t := by
  obtain ⟨t, ht, hs⟩ := problem_init_eq Real.sqrt tu 100 by_ fuel s0 s h
  have hP : ∀ n k, ¬ |tu k (-by_ / 2) (by_ / 2)| < by_ / 16 →
      (fun p : particle ℝ => |p.x| ≤ 100 / 16) (massive_pt tu 100 by_ n k) := by
    intro n k _
    have hx := hu n (-100 / 16) (100 / 16) (by norm_num)
    simp only [massive_pt]
    exact abs_le.mpr ⟨by linarith [hx.1], hx.2⟩
  obtain ⟨_, _, _, _, _, hcfg, tN, tA, tlen, tP, tQ⟩ :=
    problem_init_particles_spec tu 100 by_ (fun p => |p.x| ≤ 100 / 16)
      (fun p => p.x = -100 / 8) hP (fun _ => rfl) fuel s0 t hN hstore ht
  have hbx : t.boxsize_x = 100 := hcfg.2.1
  have hsoft : t.softening = 0 := hcfg.2.2.2.1
  have key : ∀ i j, t.N_active ≤ i → i < t.N → j < t.N_active →
      t.boxsize_x / 16 ≤ |(t.get i).x - (t.get j).x| ∧
      t.boxsize_x / 16 ≤ pair_r Real.sqrt t i j := by
    intro i j hi hi' hj
    have hxi : (t.get i).x = -100 / 8 :=
      tQ _ (getD_mem_drop t.particles (particle.zero ℝ) 200 i (by omega) (by omega))
    have hxj : |(t.get j).x| ≤ 100 / 16 :=
      tP _ (getD_mem_take t.particles (particle.zero ℝ) 200 j (by omega) (by omega))
    have hxj' := abs_le.mp hxj
    have hdx : (100 : ℝ) / 16 ≤ |(t.get i).x - (t.get j).x| := by
      rw [hxi, abs_sub_comm]
      exact le_trans (by linarith [hxj'.1]) (le_abs_self _)
    refine ⟨by rw [hbx]; exact hdx, ?_⟩
    rw [hbx, pair_r, hsoft]
    apply Real.le_sqrt_of_sq_le
    have h1 : ((100 : ℝ) / 16) ^ 2 ≤ |(t.get i).x - (t.get j).x| ^ 2 :=
      pow_le_pow_left₀ (by norm_num) hdx 2
    rw [sq_abs] at h1
    nlinarith [mul_self_nonneg ((t.get i).y - (t.get j).y),
      mul_self_nonneg ((t.get i).z - (t.get j).z)]
  refine ⟨t, ht, hs, hsoft, hbx, by rw [hbx]; norm_num, key, ?_⟩
  intro i j hi hi' hj
  have := (key i j hi hi' hj).2
  rw [hbx] at this
  have h0 : (0 : ℝ) < 100 / 16 := by norm_num
  exact ne_of_gt (lt_of_lt_of_le h0 this)

/-- C9, witness: a run of `problem_init` over the reals on the empty store. -/
theorem problem_init_energy_defined_witness :
    ∃ s, problem_init Real.sqrt (upperSampler ℝ) 100 100 300 (emptySim ℝ) = some s ∧
      ∃ t, problem_init_particles (upperSampler ℝ) 100 100 300 (emptySim ℝ) = some t ∧
        separated Real.sqrt t := by
  obtain ⟨s, hs⟩ := problem_init_returns Real.sqrt (upperSampler ℝ) 100 100
    (upperSampler_accepts 100) 300 (by decide) (emptySim ℝ) rfl
  obtain ⟨t, ht, h⟩ := problem_init_energy_defined (upperSampler ℝ) 100 300 (emptySim ℝ) s
    upperSampler_in_range rfl rfl hs
  exact ⟨s, hs, t, ht, h.2.2.2.2.2⟩

end claims

section overstability_lemmas

variable {K : Type} [LinearOrderedField K]

theorem main_config_N (M_PI : K) :
    (main_config M_PI).N = 0 ∧ (main_config M_PI).particles = [] ∧
      (main_config M_PI).ri_sei_OMEGA = 1 ∧ (main_config M_PI).boxsize_x = 200 ∧
      (main_config M_PI).boxsize_y = 5 := by
  simp [main_config, reb_configure_box, reb_create_simulation]

theorem main_N_eq (M_PI : K) : main_N M_PI (main_config M_PI) = 1640 / M_PI := by
  simp only [main_N, (main_config_N M_PI).2.2.2.1, (main_config_N M_PI).2.2.2.2, main_tau,
    main_particle_r]
  norm_num

theorem main_body_N (rand : Nat → Nat) (RAND_MAX : Nat) (r : reb_simulation K) :
    (main_body rand RAND_MAX r : reb_simulation K).N = r.N + 1 := by
  simp [main_body, reb_add]

theorem main_body_inv (rand : Nat → Nat) (RAND_MAX : Nat) (P : reb_particle K → Prop)
    (hP : ∀ p : reb_particle K, p.vx = 0 → p.vz = 0 → p.vy = shear_vy p.x → P p)
    (r : reb_simulation K) (h : main_inv P r) : main_inv P (main_body rand RAND_MAX r) := by
  obtain ⟨h1, h2, h3, h4, h5⟩ := h
  refine ⟨h1, h2, h3, ?_, ?_⟩
  · simp [main_body, reb_add, h4]
  · intro p hp
    simp only [main_body, reb_add, List.mem_append, List.mem_singleton] at hp
    rcases hp with hp | hp
    · exact h5 p hp
    · rw [hp]; exact hP _ rfl rfl rfl

theorem main_body_iterate (rand : Nat → Nat) (RAND_MAX : Nat) (P : reb_particle K → Prop)
    (hP : ∀ p : reb_particle K, p.vx = 0 → p.vz = 0 → p.vy = shear_vy p.x → P p)
    (r : reb_simulation K) (h : main_inv P r) (k : Nat) :
    main_inv P ((main_body rand RAND_MAX)^[k] r) ∧
      ((main_body rand RAND_MAX)^[k] r).N = r.N + k := by
  induction k with
  | zero => exact ⟨h, rfl⟩
  | succ k ih =>
    rw [Function.iterate_succ_apply']
    exact ⟨main_body_inv rand RAND_MAX P hP _ ih.1, by rw [main_body_N, ih.2]; omega⟩

theorem main_config_inv (M_PI : K) (P : reb_particle K → Prop) :
    main_inv P (main_config M_PI) := by
  obtain ⟨h1, h2, h3, h4, h5⟩ := main_config_N M_PI
  exact ⟨h3, h4, h5, by rw [h1, h2]; rfl, by rw [h2]; simp⟩

/-- For any value of `M_PI` with `522 < 1640 / M_PI ≤ 523`, the loop performs
exactly 523 iterations. -/
theorem main_setup_eq (M_PI : K) (rand : Nat → Nat) (RAND_MAX : Nat)
    (h1 : 0 < M_PI) (h2 : 522 * M_PI < 1640) (h3 : 1640 ≤ 523 * M_PI) (fuel : Nat) :
    main_setup M_PI rand RAND_MAX fuel
      = if 523 ≤ fuel then some ((main_body rand RAND_MAX)^[523] (main_config M_PI))
        else none := by
  have hN : ∀ k, ((main_body rand RAND_MAX)^[k] (main_config M_PI)).N = k := by
    intro k
    have := (main_body_iterate rand RAND_MAX (fun _ => True) (fun _ _ _ _ => trivial)
      (main_config M_PI) (main_config_inv M_PI _) k).2
    rw [this, (main_config_N M_PI).1]; omega
  unfold main_setup
  simp only [main_N_eq]
  apply whileFuel_iterate
  · intro k hk
    rw [hN k]
    simp only [decide_eq_true_eq]
    rw [lt_div_iff₀ h1]
    have hk' : (k : K) ≤ 522 := by exact_mod_cast (by omega : k ≤ 522)
    nlinarith
  · rw [hN 523]
    simp only [decide_eq_false_iff_not, not_lt]
    rw [div_le_iff₀ h1]
    exact_mod_cast h3

end overstability_lemmas

section overstability_claims

variable {K : Type} [LinearOrderedField K]

/-- C10: with `boxsize.x = 200`, `boxsize.y = 5`, `tau = 1.64`, `particle_r = 1`,
`r->N` starting at 0 and `reb_add` increasing it by one, the loop
`while (r->N < _N)` ends after exactly 523 additions: `_N = 1640/pi`, 523 is
the least integer not below it, the loop returns the 523rd iterate of its body
when given at least 523 iterations and not before, and the realised optical
depth is at least `tau` and exceeds it by less than one particle's share. -/
theorem overstability_particle_count (rand : Nat → Nat) (RAND_MAX : Nat) :
    main_N Real.pi (main_config Real.pi) = 1640 / Real.pi ∧
      ⌈(1640 / Real.pi : ℝ)⌉₊ = 523 ∧
      ∃ r : reb_simulation ℝ,
        r = (main_body rand RAND_MAX)^[523] (main_config Real.pi) ∧
        (∀ fuel, main_setup Real.pi rand RAND_MAX fuel = if 523 ≤ fuel then some r else none) ∧
        r.N = 523 ∧ r.particles.length = 523 ∧ r.boxsize_x = 200 ∧ r.boxsize_y = 5 ∧
        main_tau ≤ optical_depth Real.pi r ∧
        optical_depth Real.pi r
          < main_tau + Real.pi * main_particle_r ^ 2 / (r.boxsize_x * r.boxsize_y) := by
  have hpos : (0 : ℝ) < Real.pi := Real.pi_pos
  have hlo : (3.14 : ℝ) < Real.pi := Real.pi_gt_d2
  have hhi : Real.pi < (3.1416 : ℝ) := Real.pi_lt_d4
  have h2 : 522 * Real.pi < 1640 := by linarith
  have h3 : 1640 ≤ 523 * Real.pi := by linarith
  obtain ⟨⟨_, i2, i3, i4, _⟩, iN⟩ :=
    main_body_iterate rand RAND_MAX (fun _ : reb_particle ℝ => True) (fun _ _ _ _ => trivial)
      (main_config Real.pi) (main_config_inv Real.pi _) 523
  rw [(main_config_N Real.pi).1] at iN
  refine ⟨main_N_eq Real.pi, ?_, _, rfl, main_setup_eq Real.pi rand RAND_MAX hpos h2 h3,
    by omega, by omega, i2, i3, ?_, ?_⟩
  · rw [Nat.ceil_eq_iff (by norm_num)]
    constructor
    · rw [lt_div_iff₀ hpos]; norm_num; linarith
    · rw [div_le_iff₀ hpos]; norm_num; linarith
  · rw [optical_depth, i2, i3, iN, main_tau, main_particle_r, le_div_iff₀ (by norm_num)]
    norm_num; linarith
  · rw [optical_depth, i2, i3, iN, main_tau, main_particle_r, div_lt_iff₀ (by norm_num)]
    norm_num; linarith

/-- C7: in the overstability setup `ri_sei.OMEGA = 1`, every particle passed to
`reb_add` has `vx = 0`, `vz = 0` and `vy = -1.5 * OMEGA * x`, and for every
integer `k` moving a particle from `x` to `x + k * boxsize.x` changes the
prescribed `vy` by exactly `-1.5 * OMEGA * boxsize.x * k`. -/
theorem overstability_shear (M_PI : K) (rand : Nat → Nat) (RAND_MAX : Nat) (fuel : Nat)
    (r : reb_simulation K) (h : main_setup M_PI rand RAND_MAX fuel = some r) :
    r.ri_sei_OMEGA = 1 ∧
      (∀ p ∈ r.particles, p.vx = 0 ∧ p.vz = 0 ∧ p.vy = -1.5 * r.ri_sei_OMEGA * p.x) ∧
      ∀ (k : ℤ) (x : K),
        shear_vy (x + k * r.boxsize_x) - shear_vy x
          = -1.5 * r.ri_sei_OMEGA * r.boxsize_x * k := by
  obtain ⟨⟨h1, _, _, _, h5⟩, _⟩ :=
    whileFuel_inv _ (main_body rand RAND_MAX)
      (main_inv fun p : reb_particle K => p.vx = 0 ∧ p.vz = 0 ∧ p.vy = shear_vy p.x)
      (fun t ht _ => main_body_inv rand RAND_MAX _ (fun _ a b c => ⟨a, b, c⟩) t ht)
      fuel _ r (main_config_inv M_PI _) h
  refine ⟨h1, ?_, ?_⟩
  · intro p hp
    obtain ⟨a, b, c⟩ := h5 p hp
    refine ⟨a, b, ?_⟩
    rw [c, h1, shear_vy]; ring
  · intro k x
    rw [h1, shear_vy, shear_vy]; ring

/-- C7, witness: the setup run with `M_PI = 355/113` and `rand()` returning 0. -/
theorem overstability_shear_witness :
    ∃ r, main_setup (355 / 113 : ℚ) (fun _ => 0) 2147483647 523 = some r ∧
      r.ri_sei_OMEGA = 1 ∧
      ∀ p ∈ r.particles, p.vx = 0 ∧ p.vz = 0 ∧ p.vy = -1.5 * r.ri_sei_OMEGA * p.x := by
  have hr := main_setup_eq (355 / 113 : ℚ) (fun _ => 0) 2147483647
    (by norm_num) (by norm_num) (by norm_num) 523
  rw [if_pos (le_refl 523)] at hr
  have h := overstability_shear (355 / 113 : ℚ) (fun _ => 0) 2147483647 523 _ hr
  exact ⟨_, hr, h.1, h.2.1⟩

end overstability_claims

end Rebound
